import Mathlib

/-!
Shallow embedding of `jogger/jogger.py` (a JSON logging formatter).

Python dictionaries are modelled as association lists (`List (String × α)`)
with update-in-place-or-append assignment, which matches insertion-ordered
dict semantics.  Machine values that can appear as record attributes or
message-payload entries are modelled by the inductive `Value`; values that
are not JSON-native carry the observable result of the external conversion
applied to them (a datetime carries its `isoformat` string, a traceback
carries its joined and stripped `format_tb` text, an exception or class
carries the result of `str(obj)` — `none` when its `__str__` itself raises,
an arbitrary object likewise carries the result of `str(obj)` or `none`
when `str` itself raises).  Fallible Python code is embedded with `Except`.

External services of the host logging framework (`record.getMessage()`,
`Formatter.formatTime`, `Formatter.formatException`) are deterministic
functions of the record; their results are carried on the record as oracle
fields (`msgText`, `asctimeText`, and the payload of `excInfo`).
`Formatter.formatStack` is the identity on the stack text, as in CPython.
-/

/-- JSON-native and non-native Python values that can appear in a record. -/
inductive Value where
  | null : Value
  | str (s : String) : Value
  | int (n : Int) : Value
  | bool (b : Bool) : Value
  | dict (d : List (String × Value)) : Value
  | pydt (iso : String) : Value
  | tb (txt : String) : Value
  | exc (strRes : Option String) : Value
  | obj (strRes : Option String) : Value

/-- An insertion-ordered string-keyed dictionary of values. -/
abbrev Dct := List (String × Value)

/-- Python truthiness of a `Value` (`bool(v)`). -/
def Value.truthy : Value → Bool
  | Value.null => false
  | Value.str s => !s.isEmpty
  | Value.int n => n != 0
  | Value.bool b => b
  | Value.dict d => !d.isEmpty
  | Value.pydt _ => true
  | Value.tb _ => true
  | Value.exc _ => true
  | Value.obj _ => true

/-- `d.get(k)`: first binding of `k`, if any. -/
def alGet? {α : Type} : List (String × α) → String → Option α
  | [], _ => none
  | (k2, v) :: rest, k => if k2 = k then some v else alGet? rest k

/-- `d[k] = v`: update the binding of `k` in place, or append it. -/
def alSet {α : Type} : List (String × α) → String → α → List (String × α)
  | [], k, v => [(k, v)]
  | (k2, v2) :: rest, k, v =>
    if k2 = k then (k, v) :: rest else (k2, v2) :: alSet rest k v

/-- `target.update(src)`: assign every binding of `src` into `target`. -/
def alUpdate {α : Type} (target src : List (String × α)) : List (String × α) :=
  src.foldl (fun t p => alSet t p.1 p.2) target

/-- Truthiness of `d.get(k)` (absent key gives `None`, which is falsy). -/
def truthyGet (d : Dct) (k : String) : Bool :=
  match alGet? d k with
  | some v => v.truthy
  | none => false

/-- Truthiness of an optional string attribute (`None` and `""` are falsy). -/
def truthyOS : Option String → Bool
  | some s => !s.isEmpty
  | none => false

/-- The `RESERVED_ATTRS` tuple of built-in record attribute names. -/
def RESERVED_ATTRS : List String :=
  ["args", "asctime", "created", "exc_info", "exc_text", "filename",
   "funcName", "levelname", "levelno", "lineno", "module",
   "msecs", "message", "msg", "name", "pathname", "process",
   "processName", "relativeCreated", "stack_info", "thread", "threadName"]

/-- One logging event.  `dict` is the attribute bag `record.__dict__`
(built-ins plus caller extras); the remaining fields mirror the attributes
`created`, `exc_info` (with the text `formatException` would produce),
`exc_text` and `stack_info`, plus oracle fields for the external services
`record.getMessage()` and `Formatter.formatTime`. -/
structure LogRecord where
  dict : Dct
  created : Nat
  excInfo : Option String
  excText : Option String
  stackInfo : Option String
  msgText : String
  asctimeText : String

/-- `key.startswith("_")`, in a decidably evaluable single-character
form. -/
def startsUnderscore (k : String) : Bool :=
  match k.data with
  | [] => false
  | c :: _ => c = Char.ofNat 95

/-- One step of the extras merge: assign the attribute unless its key is
reserved or starts with an underscore.  (The `hasattr(key, "startswith")`
guard of the source is vacuous here since keys are strings.) -/
def mergeStep (reserved : List String) (t : Dct) (p : String × Value) : Dct :=
  if !(reserved.contains p.1) && !(startsUnderscore p.1) then alSet t p.1 p.2 else t

/-- `merge_record_extra`: copy every attribute of the record whose key is
not in `reserved` and does not start with an underscore into `target`. -/
def merge_record_extra (record : LogRecord) (target : Dct) (reserved : List String) : Dct :=
  record.dict.foldl (mergeStep reserved) target

/-- Exceptions raised by embedded Python code. -/
inductive PyError where
  | typeError : PyError
  | generalError : PyError

/-- Python `str(v)`.  For an arbitrary object the result is the carried
string, or a raised exception when the carried result is `none`; for the
special kinds it is their textual payload; for natives it is their repr-ish
rendering (the exact text of a native repr is irrelevant downstream, only
that `str` succeeds on natives). -/
def pyStrV : Value → Except PyError String
  | Value.null => Except.ok "None"
  | Value.str s => Except.ok s
  | Value.int n => Except.ok (toString n)
  | Value.bool b => Except.ok (if b then "True" else "False")
  | Value.dict d => Except.ok (toString d.length)
  | Value.pydt iso => Except.ok iso
  | Value.tb txt => Except.ok txt
  | Value.exc strRes =>
    match strRes with
    | some s => Except.ok s
    | none => Except.error PyError.generalError
  | Value.obj strRes =>
    match strRes with
    | some s => Except.ok s
    | none => Except.error PyError.generalError

/-- `json.JSONEncoder.default` of the standard library raises `TypeError`
for every argument. -/
def superDefault : Value → Except PyError Value :=
  fun _ => Except.error PyError.typeError

/-- `JsonEncoder.default`: dates and times become their isoformat string,
tracebacks their joined trimmed text, exception instances and classes their
`str` — that `str(obj)` call sits outside the try/except, so a failure of
`__str__` propagates; everything else goes to the base default (which
raises `TypeError`), caught and retried as `str(obj)`, where a failing
`str` yields `None`. -/
def JsonEncoder.default (obj : Value) : Except PyError Value :=
  match obj with
  | Value.pydt iso => Except.ok (Value.str iso)
  | Value.tb txt => Except.ok (Value.str txt)
  | Value.exc strRes =>
    (match pyStrV (Value.exc strRes) with
     | Except.ok s => Except.ok (Value.str s)
     | Except.error e => Except.error e)
  | v =>
    match superDefault v with
    | Except.ok r => Except.ok r
    | Except.error PyError.typeError =>
      (match pyStrV v with
       | Except.ok s => Except.ok (Value.str s)
       | Except.error _ => Except.ok Value.null)
    | Except.error e => Except.error e

mutual

/-- `json.dumps` traversal of one value with `cls=JsonEncoder`: native
values serialize as themselves, mappings recursively, and every non-native
value goes through `JsonEncoder.default`. -/
def jsonifyValue : Value → Except PyError Value
  | Value.null => Except.ok Value.null
  | Value.str s => Except.ok (Value.str s)
  | Value.int n => Except.ok (Value.int n)
  | Value.bool b => Except.ok (Value.bool b)
  | Value.dict d =>
    match jsonifyEntries d with
    | Except.ok l => Except.ok (Value.dict l)
    | Except.error e => Except.error e
  | Value.pydt iso => JsonEncoder.default (Value.pydt iso)
  | Value.tb txt => JsonEncoder.default (Value.tb txt)
  | Value.exc strRes => JsonEncoder.default (Value.exc strRes)
  | Value.obj strRes => JsonEncoder.default (Value.obj strRes)

/-- `json.dumps` traversal of the entries of a mapping. -/
def jsonifyEntries : List (String × Value) → Except PyError (List (String × Value))
  | [] => Except.ok []
  | (k, v) :: rest =>
    match jsonifyValue v, jsonifyEntries rest with
    | Except.ok v2, Except.ok r2 => Except.ok ((k, v2) :: r2)
    | Except.error e, _ => Except.error e
    | _, Except.error e => Except.error e

end

mutual

/-- Whether a value contains no exception value whose string conversion
fails — the one shape on which the encoder propagates an error. -/
def noFailingExcV : Value → Bool
  | Value.exc none => false
  | Value.dict d => noFailingExcD d
  | _ => true

/-- Whether no entry of a mapping contains a failing exception value. -/
def noFailingExcD : List (String × Value) → Bool
  | [] => true
  | (_, v) :: rest => noFailingExcV v && noFailingExcD rest

end

/-- Left zero pad to two digits. -/
def pad2 (n : Nat) : String :=
  if n < 10 then "0" ++ toString n else toString n

/-- Left zero pad to four digits. -/
def pad4 (n : Nat) : String :=
  if n < 10 then "000" ++ toString n
  else if n < 100 then "00" ++ toString n
  else if n < 1000 then "0" ++ toString n
  else toString n

/-- `datetime.fromtimestamp(t, tz=timezone.utc).isoformat()` for an
integral epoch-second timestamp: proleptic Gregorian civil-from-days. -/
def isoUtc (t : Nat) : String :=
  let days := t / 86400
  let secs := t % 86400
  let z := days + 719468
  let era := z / 146097
  let doe := z % 146097
  let yoe := (doe - doe / 1460 + doe / 36524 - doe / 146096) / 365
  let y := yoe + era * 400
  let doy := doe - (365 * yoe + yoe / 4 - yoe / 100)
  let mp := (5 * doy + 2) / 153
  let d := doy - (153 * mp + 2) / 5 + 1
  let m := if mp < 10 then mp + 3 else mp - 9
  let y2 := if m ≤ 2 then y + 1 else y
  pad4 y2 ++ "-" ++ pad2 m ++ "-" ++ pad2 d ++ "T" ++
    pad2 (secs / 3600) ++ ":" ++ pad2 ((secs % 3600) / 60) ++ ":" ++
    pad2 (secs % 60) ++ "+00:00"

/-- The three template placeholder styles of the logging framework. -/
inductive FmtStyle where
  | percent : FmtStyle
  | strFormat : FmtStyle
  | stringTemplate : FmtStyle

/-- The `timestamp` option: `False`, `True`, or a key-name string. -/
inductive TsFlag where
  | fls : TsFlag
  | tru : TsFlag
  | strK (s : String) : TsFlag

/-- Python truthiness of the `timestamp` option. -/
def TsFlag.truthy : TsFlag → Bool
  | TsFlag.fls => false
  | TsFlag.tru => true
  | TsFlag.strK s => !s.isEmpty

/-- `self.timestamp if type(self.timestamp) == str else "timestamp"`. -/
def TsFlag.key : TsFlag → String
  | TsFlag.strK s => s
  | _ => "timestamp"

/-- Strip `pat` from the front of `s`, if it is a prefix. -/
def stripPre : List Char → List Char → Option (List Char)
  | [], s => some s
  | _ :: _, [] => none
  | p :: ps, c :: s => if c = p then stripPre ps s else none

/-- Lazy body match of `(.+?)` followed by `close`: collect at least one
non-newline character, stopping at the first `close` that leaves a
non-empty body.  Returns the body and the remainder after `close`. -/
def findCloseAux (close : Char) : List Char → List Char → Option (List Char × List Char)
  | _, [] => none
  | acc, c :: rest =>
    if acc ≠ [] ∧ c = close then some (acc.reverse, rest)
    else if c = Char.ofNat 10 then none
    else findCloseAux close (c :: acc) rest

/-- `re.findall` of `open(.+?)close` over a character list, fuelled by the
length of the list (each step consumes at least one character). -/
def scanAux (openPat : List Char) (close : Char) : Nat → List Char → List String
  | 0, _ => []
  | _, [] => []
  | fuel + 1, c :: rest =>
    match stripPre openPat (c :: rest) with
    | some afterOpen =>
      match findCloseAux close [] afterOpen with
      | some (body, rest2) => String.mk body :: scanAux openPat close fuel rest2
      | none => scanAux openPat close fuel rest
    | none => scanAux openPat close fuel rest

/-- `re.findall` of the style pattern over a template string. -/
def scanTemplate (openPat : List Char) (close : Char) (s : String) : List String :=
  scanAux openPat close s.data.length s.data

/-- The formatter configuration captured at construction.  `fmtStr` is the
`_fmt` attribute of the base formatter (the configured template string, the
empty string when falsy) and `style` the selected placeholder style.  The
serializer hooks, indent, ascii and prefix options do not influence the
field-selection semantics the claims are about and are not modelled. -/
structure JsonFormatter where
  rename_fields : List (String × String)
  static_fields : Dct
  reserved_attrs : List String
  timestamp : TsFlag
  style : FmtStyle
  fmtStr : String

/-- `JsonFormatter.parse`: extract the placeholder field names of the
template with the regex of the configured style; with a falsy template the
list is empty.  The `raise ValueError` arm of the source is unreachable
here because the three style classes are modelled as an exhaustive
enumeration. -/
def JsonFormatter.parse (f : JsonFormatter) : List String :=
  match f.style with
  | FmtStyle.stringTemplate =>
    if f.fmtStr.isEmpty then []
    else scanTemplate [Char.ofNat 36, Char.ofNat 123] (Char.ofNat 125) f.fmtStr
  | FmtStyle.strFormat =>
    if f.fmtStr.isEmpty then []
    else scanTemplate [Char.ofNat 123] (Char.ofNat 125) f.fmtStr
  | FmtStyle.percent =>
    if f.fmtStr.isEmpty then []
    else scanTemplate [Char.ofNat 37, Char.ofNat 40] (Char.ofNat 41) f.fmtStr

/-- The `_required_fields` attribute, computed once at construction as
`self.parse()`. -/
def JsonFormatter.required_fields (f : JsonFormatter) : List String :=
  f.parse

/-- The `_skip_fields` attribute: the parsed fields joined with the
reserved attributes (both stored as identity mappings in the source; only
key membership is ever used, so a list of names suffices). -/
def JsonFormatter.skip_fields (f : JsonFormatter) : List String :=
  f.required_fields ++ f.reserved_attrs

/-- The first loop of `add_fields`: store each parsed field (in template
order) under its renamed key when the rename map has an entry for it, else
under its own name, with the value looked up on the record (missing gives
null). -/
def reqFold (f : JsonFormatter) (record : LogRecord) (log_record : Dct) : Dct :=
  f.required_fields.foldl
    (fun lr field =>
      match alGet? f.rename_fields field with
      | some newName => alSet lr newName ((alGet? record.dict field).getD Value.null)
      | none => alSet lr field ((alGet? record.dict field).getD Value.null))
    log_record

/-- `JsonFormatter.add_fields`: parsed fields first (renamed when mapped,
value looked up on the record, missing gives null), then static fields,
then message fields, then non-skipped extras, then the timestamp key. -/
def JsonFormatter.add_fields (f : JsonFormatter) (log_record : Dct)
    (record : LogRecord) (message_dict : Dct) : Dct :=
  let lr := reqFold f record log_record
  let lr := alUpdate lr f.static_fields
  let lr := alUpdate lr message_dict
  let lr := merge_record_extra record lr f.skip_fields
  if f.timestamp.truthy then
    alSet lr f.timestamp.key (Value.pydt (isoUtc record.created))
  else lr

/-- `process_log_record` is the identity pass-through hook. -/
def JsonFormatter.process_log_record (_f : JsonFormatter) (log_record : Dct) : Dct :=
  log_record

/-- `jsonify_log_record`: serialize the assembled object with the default
encoder installed (the value traversal; text rendering is not modelled). -/
def JsonFormatter.jsonify_log_record (_f : JsonFormatter) (log_record : Dct) :
    Except PyError Dct :=
  jsonifyEntries log_record

/-- The message mapping of the record: `record.msg` when it is a dict. -/
def msgDict0 (record : LogRecord) : Option Dct :=
  match alGet? record.dict "msg" with
  | some (Value.dict d) => some d
  | _ => none

/-- The exception and stack enrichment of the message mapping performed by
`format`: add a formatted `exc_info` entry when the record carries a truthy
exception triple and the mapping has no truthy `exc_info`; else fall back
to a truthy `exc_text`; independently add a truthy `stack_info` through
`formatStack` (the identity on the text). -/
def enrichMessage (record : LogRecord) (md : Dct) : Dct :=
  let md1 :=
    match record.excInfo with
    | some txt =>
      if !(truthyGet md "exc_info") then alSet md "exc_info" (Value.str txt) else md
    | none => md
  let md2 :=
    if !(truthyGet md1 "exc_info") && truthyOS record.excText then
      alSet md1 "exc_info" (Value.str (record.excText.getD ""))
    else md1
  match record.stackInfo with
  | some s =>
    if !s.isEmpty && !(truthyGet md2 "stack_info") then
      alSet md2 "stack_info" (Value.str s)
    else md2
  | none => md2

/-- The state of the record after `format` ran: `record.message` is set to
null for a mapping message and to the formatted message otherwise,
`record.asctime` is set when `asctime` is a parsed field, and for a mapping
message the enrichment of the mapping is visible through the alias
`record.msg`. -/
def recordAfter (f : JsonFormatter) (record : LogRecord) : LogRecord :=
  let d1 := alSet record.dict "message"
    (match msgDict0 record with
     | some _ => Value.null
     | none => Value.str record.msgText)
  let d2 :=
    if f.required_fields.contains "asctime" then
      alSet d1 "asctime" (Value.str record.asctimeText)
    else d1
  let d3 :=
    match msgDict0 record with
    | some md => alSet d2 "msg" (Value.dict (enrichMessage record md))
    | none => d2
  { record with dict := d3 }

/-- `JsonFormatter.format`, with the record mutations made explicit: the
first component is the assembled output object after `process_log_record`
and the second is the record as `format` leaves it. -/
def JsonFormatter.format (f : JsonFormatter) (record : LogRecord) : Dct × LogRecord :=
  let md := enrichMessage record ((msgDict0 record).getD [])
  let r2 := recordAfter f record
  (f.process_log_record (f.add_fields [] r2 md), r2)

/-- Whether a value is a JSON string or null. -/
def strOrNull : Value → Bool
  | Value.str _ => true
  | Value.null => true
  | _ => false

/-- A formatter with the default configuration and a given template. -/
def mkPlain (st : FmtStyle) (fmt : String) : JsonFormatter :=
  { rename_fields := [], static_fields := [], reserved_attrs := RESERVED_ATTRS,
    timestamp := TsFlag.fls, style := st, fmtStr := fmt }

/-- A record carrying an extra attribute named `module` colliding with the
reserved attribute of the same name. -/
def rW3 : LogRecord :=
  { dict := [("module", Value.str "extramod")], created := 0, excInfo := none,
    excText := none, stackInfo := none, msgText := "hi", asctimeText := "AT" }

/-- A target object already holding the built-in `module` value. -/
def tW3 : Dct := [("module", Value.str "builtinmod")]

/-- A default-configured percent-style formatter with one parsed field. -/
def fW3 : JsonFormatter := mkPlain FmtStyle.percent "%(x)s"

/-- A formatter renaming `levelname` to `severity`, template
`%(levelname)s`. -/
def f7 : JsonFormatter :=
  { rename_fields := [("levelname", "severity")], static_fields := [],
    reserved_attrs := RESERVED_ATTRS, timestamp := TsFlag.fls,
    style := FmtStyle.percent, fmtStr := "%(levelname)s" }

/-- A record whose level is `WARN`, logged with a plain string message. -/
def rW7 : LogRecord :=
  { dict := [("name", Value.str "root"), ("msg", Value.str "hello"),
             ("levelname", Value.str "WARN")],
    created := 0, excInfo := none, excText := none, stackInfo := none,
    msgText := "hello", asctimeText := "AT" }

/-- A formatter renaming `levelname` to `sev`, a name that is neither
reserved nor parsed. -/
def f10 : JsonFormatter :=
  { rename_fields := [("levelname", "sev")], static_fields := [],
    reserved_attrs := RESERVED_ATTRS, timestamp := TsFlag.fls,
    style := FmtStyle.percent, fmtStr := "%(levelname)s" }

/-- A record carrying both a `levelname` built-in and an extra named
`sev`. -/
def rW10 : LogRecord :=
  { dict := [("name", Value.str "root"), ("msg", Value.str "hello"),
             ("levelname", Value.str "WARN"), ("sev", Value.str "extra")],
    created := 0, excInfo := none, excText := none, stackInfo := none,
    msgText := "hello", asctimeText := "AT" }

/-- A formatter whose only parsed field is `message`. -/
def f4 : JsonFormatter := mkPlain FmtStyle.percent "%(message)s"

/-- The mapping payload of the C4 witness record. -/
def dmW4 : Dct := [("service", Value.str "y"), ("extra1", Value.int 5)]

/-- A record logged with a mapping payload instead of a string message. -/
def rW4 : LogRecord :=
  { dict := [("name", Value.str "root"), ("msg", Value.dict dmW4)],
    created := 0, excInfo := none, excText := none, stackInfo := none,
    msgText := "ignored", asctimeText := "AT" }

/-- A formatter with no template; its only output sources are the message
payload, the exception enrichment, and the extras. -/
def f8 : JsonFormatter := mkPlain FmtStyle.percent ""

/-- A record whose mapping payload supplies a falsy (empty-string)
`exc_info` entry while the record itself carries exception info whose
formatted text is `TB`. -/
def rC8 : LogRecord :=
  { dict := [("msg", Value.dict [("exc_info", Value.str "")])],
    created := 0, excInfo := some "TB", excText := none, stackInfo := none,
    msgText := "x", asctimeText := "AT" }

/-- A record with a mapping payload lacking `exc_info` and exception info
formatted as `TB2`. -/
def rW8 : LogRecord :=
  { dict := [("msg", Value.dict [("k", Value.int 1)])],
    created := 0, excInfo := some "TB2", excText := none, stackInfo := none,
    msgText := "x", asctimeText := "AT" }

/-- A formatter with parsed fields `foo` and `bar`, static fields
colliding with the parsed `bar`, the message payload (`service`), the
extras (`user_id`) and the injected timestamp, and `timestamp = True`. -/
def fA : JsonFormatter :=
  { rename_fields := [],
    static_fields := [("service", Value.str "x"), ("user_id", Value.str "s0"),
                      ("timestamp", Value.str "t0"), ("bar", Value.str "B")],
    reserved_attrs := RESERVED_ATTRS, timestamp := TsFlag.tru,
    style := FmtStyle.percent, fmtStr := "%(foo)s %(bar)s" }

/-- The same formatter with a configured timestamp key name. -/
def fB : JsonFormatter := { fA with timestamp := TsFlag.strK "ts" }

/-- A record with a mapping payload, an extra `user_id`, and a `foo`
attribute matching the template of `fA`. -/
def rW1 : LogRecord :=
  { dict := [("name", Value.str "root"),
             ("msg", Value.dict [("service", Value.str "y"), ("user_id", Value.str "m0")]),
             ("user_id", Value.str "u1"),
             ("foo", Value.int 7)],
    created := 1234567890, excInfo := none, excText := none, stackInfo := none,
    msgText := "hi", asctimeText := "AT" }

/-- A log object holding a date value, an object whose `str` fails, and an
exception whose string conversion succeeds. -/
def dW2 : Dct :=
  [("when", Value.pydt "1970-01-01T00:00:00+00:00"),
   ("payload", Value.obj none),
   ("err", Value.exc (some "boom"))]

/-- A record logged with a plain string message. -/
def r9 : LogRecord :=
  { dict := [("msg", Value.str "hi"), ("name", Value.str "root")],
    created := 0, excInfo := none, excText := none, stackInfo := none,
    msgText := "hi", asctimeText := "AT" }

/-! Lemmas and claim theorems. -/

theorem alGet_set_self {α : Type} (d : List (String × α)) (k : String) (v : α) :
    alGet? (alSet d k v) k = some v := by
  induction d with
  | nil => simp [alSet, alGet?]
  | cons p rest ih =>
    obtain ⟨k2, v2⟩ := p
    by_cases h : k2 = k
    · simp [alSet, h, alGet?]
    · simp [alSet, h, alGet?, ih]

theorem alGet_set_ne {α : Type} (d : List (String × α)) (k k2 : String) (v : α)
    (h : k2 ≠ k) : alGet? (alSet d k v) k2 = alGet? d k2 := by
  have h2 : k ≠ k2 := Ne.symm h
  induction d with
  | nil => simp [alSet, alGet?, h2]
  | cons p rest ih =>
    obtain ⟨k1, v1⟩ := p
    by_cases h1 : k1 = k
    · subst h1
      simp [alSet, alGet?, h2]
    · simp [alSet, alGet?, h1, ih]

theorem alGet_none_of_not_mem_keys {α : Type} (l : List (String × α)) (k : String)
    (hk : k ∉ l.map Prod.fst) : alGet? l k = none := by
  induction l with
  | nil => rfl
  | cons p rest ih =>
    obtain ⟨k1, v1⟩ := p
    have h1 : k1 ≠ k := fun h => hk (by simp [h])
    have h2 : k ∉ rest.map Prod.fst := fun h => hk (by simp [h])
    simp [alGet?, h1, ih h2]

theorem mergeFold_get_skip (res : List String) (k : String)
    (hk : res.contains k = true ∨ startsUnderscore k = true) (l : List (String × Value)) :
    ∀ t : Dct, alGet? (l.foldl (mergeStep res) t) k = alGet? t k := by
  induction l with
  | nil => intro t; rfl
  | cons p rest ih =>
    intro t
    obtain ⟨k1, v1⟩ := p
    rw [List.foldl_cons, ih]
    by_cases h1 : k1 = k
    · subst h1
      unfold mergeStep
      split
      next hcond =>
        exfalso
        simp at hcond
        rcases hk with hk | hk
        · exact hcond.1 (by simpa using hk)
        · simp [hk] at hcond
      next => rfl
    · unfold mergeStep
      split
      · exact alGet_set_ne t k1 k v1 (Ne.symm h1)
      · rfl

theorem mergeFold_get_absent (res : List String) (k : String)
    (l : List (String × Value)) :
    alGet? l k = none →
    ∀ t : Dct, alGet? (l.foldl (mergeStep res) t) k = alGet? t k := by
  induction l with
  | nil => intro _ t; rfl
  | cons p rest ih =>
    intro hget t
    obtain ⟨k1, v1⟩ := p
    have h1 : k1 ≠ k := by
      intro h
      simp [alGet?, h] at hget
    have hrest : alGet? rest k = none := by
      simpa [alGet?, h1] using hget
    rw [List.foldl_cons, ih hrest]
    unfold mergeStep
    split
    · exact alGet_set_ne t k1 k v1 (Ne.symm h1)
    · rfl

theorem mergeFold_get_mem (res : List String) (k : String) (v : Value)
    (l : List (String × Value)) :
    (l.map Prod.fst).Nodup → alGet? l k = some v →
    res.contains k = false → startsUnderscore k = false →
    ∀ t : Dct, alGet? (l.foldl (mergeStep res) t) k = some v := by
  induction l with
  | nil => intro _ hget; simp [alGet?] at hget
  | cons p rest ih =>
    intro hnd hget hres hus t
    obtain ⟨k1, v1⟩ := p
    have hnd2 : (k1 :: rest.map Prod.fst).Nodup := by simpa using hnd
    rw [List.foldl_cons]
    by_cases h1 : k1 = k
    · subst h1
      have hv : v1 = v := by simpa [alGet?] using hget
      subst hv
      have hnotin : alGet? rest k1 = none :=
        alGet_none_of_not_mem_keys rest k1 (List.nodup_cons.mp hnd2).1
      rw [mergeFold_get_absent res k1 rest hnotin]
      unfold mergeStep
      have hres2 : k1 ∉ res := by simpa using hres
      have hc : (!(res.contains k1) && !(startsUnderscore k1)) = true := by
        simp [hres2, hus]
      rw [if_pos hc]
      exact alGet_set_self t k1 v1
    · have hrest : alGet? rest k = some v := by
        simpa [alGet?, h1] using hget
      exact ih (List.nodup_cons.mp hnd2).2 hrest hres hus _

theorem alGet_ite_set_ne (c : Prop) [Decidable c] (d : Dct) (a k : String) (v : Value)
    (h : k ≠ a) : alGet? (if c then alSet d a v else d) k = alGet? d k := by
  split
  · exact alGet_set_ne d a k v h
  · rfl

theorem enrich_get_ne (record : LogRecord) (md : Dct) (k : String)
    (h1 : k ≠ "exc_info") (h2 : k ≠ "stack_info") :
    alGet? (enrichMessage record md) k = alGet? md k := by
  unfold enrichMessage
  cases hE : record.excInfo with
  | none =>
    cases hS : record.stackInfo with
    | none =>
      simp only
      rw [alGet_ite_set_ne _ _ _ _ _ h1]
    | some s =>
      simp only
      rw [alGet_ite_set_ne _ _ _ _ _ h2, alGet_ite_set_ne _ _ _ _ _ h1]
  | some txt =>
    cases hS : record.stackInfo with
    | none =>
      simp only
      rw [alGet_ite_set_ne _ _ _ _ _ h1, alGet_ite_set_ne _ _ _ _ _ h1]
    | some s =>
      simp only
      rw [alGet_ite_set_ne _ _ _ _ _ h2, alGet_ite_set_ne _ _ _ _ _ h1,
          alGet_ite_set_ne _ _ _ _ _ h1]

theorem recordAfter_get_ne (f : JsonFormatter) (r : LogRecord) (k : String)
    (h1 : k ≠ "message") (h2 : k ≠ "asctime") (h3 : k ≠ "msg") :
    alGet? (recordAfter f r).dict k = alGet? r.dict k := by
  unfold recordAfter
  simp only
  cases hM : msgDict0 r with
  | none =>
    simp only
    rw [alGet_ite_set_ne _ _ _ _ _ h2, alGet_set_ne _ _ _ _ h1]
  | some md =>
    simp only
    rw [alGet_set_ne _ _ _ _ h3, alGet_ite_set_ne _ _ _ _ _ h2,
        alGet_set_ne _ _ _ _ h1]

theorem recordAfter_created (f : JsonFormatter) (r : LogRecord) :
    (recordAfter f r).created = r.created := rfl

theorem recordAfter_excInfo (f : JsonFormatter) (r : LogRecord) :
    (recordAfter f r).excInfo = r.excInfo := rfl

theorem recordAfter_excText (f : JsonFormatter) (r : LogRecord) :
    (recordAfter f r).excText = r.excText := rfl

theorem recordAfter_stackInfo (f : JsonFormatter) (r : LogRecord) :
    (recordAfter f r).stackInfo = r.stackInfo := rfl

theorem recordAfter_msgText (f : JsonFormatter) (r : LogRecord) :
    (recordAfter f r).msgText = r.msgText := rfl

theorem recordAfter_asctimeText (f : JsonFormatter) (r : LogRecord) :
    (recordAfter f r).asctimeText = r.asctimeText := rfl

theorem JsonEncoder_default_shape (v : Value) (r : Value)
    (h : JsonEncoder.default v = Except.ok r) : strOrNull r = true := by
  cases v with
  | exc strRes =>
    cases strRes with
    | some s =>
      simp only [JsonEncoder.default, pyStrV, Except.ok.injEq] at h
      rw [← h]
      rfl
    | none => simp [JsonEncoder.default, pyStrV] at h
  | obj strRes =>
    cases strRes with
    | some s =>
      simp only [JsonEncoder.default, superDefault, pyStrV, Except.ok.injEq] at h
      rw [← h]
      rfl
    | none =>
      simp only [JsonEncoder.default, superDefault, pyStrV, Except.ok.injEq] at h
      rw [← h]
      rfl
  | _ =>
    first
    | (simp only [JsonEncoder.default, Except.ok.injEq] at h
       rw [← h]
       rfl)
    | (simp only [JsonEncoder.default, superDefault, pyStrV, Except.ok.injEq] at h
       rw [← h]
       rfl)

mutual

theorem jsonifyValue_ok : (v : Value) → noFailingExcV v = true →
    ∃ r, jsonifyValue v = Except.ok r
  | Value.null, _ => ⟨_, rfl⟩
  | Value.str s, _ => ⟨_, rfl⟩
  | Value.int n, _ => ⟨_, rfl⟩
  | Value.bool b, _ => ⟨_, rfl⟩
  | Value.dict d, h => by
    obtain ⟨l, hl⟩ := jsonifyEntries_ok d (by simpa [noFailingExcV] using h)
    exact ⟨Value.dict l, by simp [jsonifyValue, hl]⟩
  | Value.pydt iso, _ => ⟨_, rfl⟩
  | Value.tb txt, _ => ⟨_, rfl⟩
  | Value.exc (some s), _ => ⟨_, rfl⟩
  | Value.exc none, h => by simp [noFailingExcV] at h
  | Value.obj strRes, _ => by
    cases strRes <;> exact ⟨_, rfl⟩

theorem jsonifyEntries_ok : (d : List (String × Value)) → noFailingExcD d = true →
    ∃ l, jsonifyEntries d = Except.ok l
  | [], _ => ⟨_, rfl⟩
  | (k, v) :: rest, h => by
    have h2 : noFailingExcV v = true ∧ noFailingExcD rest = true := by
      simpa [noFailingExcD, Bool.and_eq_true] using h
    obtain ⟨v2, hv⟩ := jsonifyValue_ok v h2.1
    obtain ⟨r2, hr⟩ := jsonifyEntries_ok rest h2.2
    exact ⟨(k, v2) :: r2, by simp [jsonifyEntries, hv, hr]⟩

end

/-- C5: for each supported placeholder style, `parse` returns exactly the
field names enclosed by that style, in order of appearance: a single field
`a` yields `["a"]`, and fields `b` then `a` yield `["b", "a"]`. -/
theorem c5_parse_styles :
    (mkPlain FmtStyle.percent "%(a)s").parse = ["a"] ∧
    (mkPlain FmtStyle.strFormat "{a}").parse = ["a"] ∧
    (mkPlain FmtStyle.stringTemplate "${a}").parse = ["a"] ∧
    (mkPlain FmtStyle.percent "%(b)s %(a)s").parse = ["b", "a"] ∧
    (mkPlain FmtStyle.strFormat "{b} {a}").parse = ["b", "a"] ∧
    (mkPlain FmtStyle.stringTemplate "${b} ${a}").parse = ["b", "a"] := by
  refine ⟨?_, ?_, ?_, ?_, ?_, ?_⟩ <;> rfl

/-- C6: with no template configured (a falsy `_fmt`), `parse` returns the
empty field list, whatever the remaining configuration. -/
theorem c6_parse_no_template (rn : List (String × String)) (sf : Dct)
    (ra : List String) (ts : TsFlag) (st : FmtStyle) :
    (JsonFormatter.mk rn sf ra ts st "").parse = [] := by
  cases st <;> rfl

/-- C2 counterexample: the encoder does raise — the exception branch
returns `str(obj)` outside the try/except, so an exception value whose
string conversion fails propagates the error out of `default` and out of
the serialization of an object containing it, refuting the never-raises
claim as stated. -/
theorem c2_counterexample :
    JsonEncoder.default (Value.exc none) = Except.error PyError.generalError ∧
    jsonifyEntries [("boom", Value.exc none)] = Except.error PyError.generalError :=
  ⟨rfl, rfl⟩

/-- C2 (amended): dates and times become ISO strings, tracebacks their
trimmed text, exceptions and exception classes their string form — but
that conversion is unguarded, so an exception value whose string
conversion fails propagates the error; any other object falls back to
`str` with a failing `str` giving null and never raises; every successful
encoding is a string or null, and serializing an assembled log object
never raises as long as it contains no failing exception value. -/
theorem c2_encode_fallback :
    (∀ iso, JsonEncoder.default (Value.pydt iso) = Except.ok (Value.str iso)) ∧
    (∀ txt, JsonEncoder.default (Value.tb txt) = Except.ok (Value.str txt)) ∧
    (∀ s, JsonEncoder.default (Value.exc (some s)) = Except.ok (Value.str s)) ∧
    (JsonEncoder.default (Value.exc none) = Except.error PyError.generalError) ∧
    (∀ s, JsonEncoder.default (Value.obj (some s)) = Except.ok (Value.str s)) ∧
    (JsonEncoder.default (Value.obj none) = Except.ok Value.null) ∧
    (∀ v r, JsonEncoder.default v = Except.ok r → strOrNull r = true) ∧
    (∀ (f : JsonFormatter) (lr : Dct), noFailingExcD lr = true →
       ∃ l, f.jsonify_log_record lr = Except.ok l) :=
  ⟨fun _ => rfl, fun _ => rfl, fun _ => rfl, rfl, fun _ => rfl, rfl,
   JsonEncoder_default_shape,
   fun _ lr h => jsonifyEntries_ok lr h⟩

theorem c2_witness :
    (noFailingExcD dW2 = true) ∧
    (∃ l, (mkPlain FmtStyle.percent "").jsonify_log_record dW2 = Except.ok l) ∧
    (JsonEncoder.default (Value.exc (some "boom")) = Except.ok (Value.str "boom") ∧
     strOrNull (Value.str "boom") = true) :=
  ⟨rfl,
   c2_encode_fallback.2.2.2.2.2.2.2 (mkPlain FmtStyle.percent "") dW2 rfl,
   ⟨c2_encode_fallback.2.2.1 "boom",
    c2_encode_fallback.2.2.2.2.2.2.1 (Value.exc (some "boom")) (Value.str "boom") rfl⟩⟩

/-- C3: the extras merge omits every attribute whose name is reserved, or
is a parsed field, or starts with an underscore: the value stored under
such a name before the merge is still there after it. -/
theorem c3_reserved_extras_skipped (f : JsonFormatter) (record : LogRecord)
    (target : Dct) (k : String)
    (hk : k ∈ f.reserved_attrs ∨ k ∈ f.required_fields ∨ startsUnderscore k = true) :
    alGet? (merge_record_extra record target f.skip_fields) k = alGet? target k := by
  unfold merge_record_extra
  apply mergeFold_get_skip
  rcases hk with hk | hk | hk
  · left
    have hin : k ∈ f.skip_fields := by
      unfold JsonFormatter.skip_fields
      exact List.mem_append.mpr (Or.inr hk)
    simpa using hin
  · left
    have hin : k ∈ f.skip_fields := by
      unfold JsonFormatter.skip_fields
      exact List.mem_append.mpr (Or.inl hk)
    simpa using hin
  · right; exact hk

theorem c3_witness :
    ("module" ∈ fW3.reserved_attrs ∨ "module" ∈ fW3.required_fields ∨
      startsUnderscore "module" = true) ∧
    alGet? (merge_record_extra rW3 tW3 fW3.skip_fields) "module" = alGet? tW3 "module" :=
  ⟨Or.inl (by decide),
   c3_reserved_extras_skipped fW3 rW3 tW3 "module" (Or.inl (by decide))⟩

theorem alUpdate_get_none {α : Type} (t src : List (String × α)) (k : String)
    (h : alGet? src k = none) : alGet? (alUpdate t src) k = alGet? t k := by
  induction src generalizing t with
  | nil => rfl
  | cons p rest ih =>
    obtain ⟨k1, v1⟩ := p
    have h1 : k1 ≠ k := by
      intro hh
      simp [alGet?, hh] at h
    have hrest : alGet? rest k = none := by
      simpa [alGet?, h1] using h
    unfold alUpdate
    rw [List.foldl_cons]
    have := ih (alSet t k1 v1) hrest
    unfold alUpdate at this
    rw [this]
    exact alGet_set_ne t k1 k v1 (Ne.symm h1)

theorem alUpdate_get_mem {α : Type} (src : List (String × α)) (k : String) (v : α)
    (hnd : (src.map Prod.fst).Nodup) (h : alGet? src k = some v) :
    ∀ t : List (String × α), alGet? (alUpdate t src) k = some v := by
  induction src with
  | nil => simp [alGet?] at h
  | cons p rest ih =>
    intro t
    obtain ⟨k1, v1⟩ := p
    have hnd2 : (k1 :: rest.map Prod.fst).Nodup := by simpa using hnd
    unfold alUpdate
    rw [List.foldl_cons]
    by_cases h1 : k1 = k
    · subst h1
      have hv : v1 = v := by simpa [alGet?] using h
      subst hv
      have hnone : alGet? rest k1 = none :=
        alGet_none_of_not_mem_keys rest k1 (List.nodup_cons.mp hnd2).1
      have h2 := alUpdate_get_none (alSet t k1 v1) rest k1 hnone
      unfold alUpdate at h2
      rw [h2]
      exact alGet_set_self t k1 v1
    · have hrest : alGet? rest k = some v := by
        simpa [alGet?, h1] using h
      have h2 := ih (List.nodup_cons.mp hnd2).2 hrest (alSet t k1 v1)
      unfold alUpdate at h2
      rw [h2]

/-- The output object of `format`, written as its assembly pipeline. -/
theorem format_fst (f : JsonFormatter) (r : LogRecord) :
    (f.format r).1 =
      (if f.timestamp.truthy then
        alSet
          ((recordAfter f r).dict.foldl (mergeStep f.skip_fields)
            (alUpdate
              (alUpdate (reqFold f (recordAfter f r) []) f.static_fields)
              (enrichMessage r ((msgDict0 r).getD []))))
          f.timestamp.key (Value.pydt (isoUtc (recordAfter f r).created))
      else
        (recordAfter f r).dict.foldl (mergeStep f.skip_fields)
          (alUpdate
            (alUpdate (reqFold f (recordAfter f r) []) f.static_fields)
            (enrichMessage r ((msgDict0 r).getD [])))) := rfl

/-- C7: with `rename_fields = [("levelname", "severity")]` and a template
containing `levelname`, the output object binds `severity` to the value
found under `levelname` on the record (missing gives null) and contains no
`levelname` key, for every record that is not a dict-message record and
carries no attribute named `severity`. -/
theorem c7_rename_precedence (r : LogRecord)
    (hmsg : msgDict0 r = none)
    (hsev : alGet? r.dict "severity" = none) :
    alGet? (f7.format r).1 "severity" =
      some ((alGet? r.dict "levelname").getD Value.null) ∧
    alGet? (f7.format r).1 "levelname" = none := by
  have hlev : alGet? (recordAfter f7 r).dict "levelname" = alGet? r.dict "levelname" :=
    recordAfter_get_ne f7 r "levelname" (by decide) (by decide) (by decide)
  have hstep : (f7.format r).1 =
      (recordAfter f7 r).dict.foldl (mergeStep f7.skip_fields)
        (alUpdate
          (alUpdate (reqFold f7 (recordAfter f7 r) []) f7.static_fields)
          (enrichMessage r ((msgDict0 r).getD []))) := rfl
  have hpre : alUpdate (reqFold f7 (recordAfter f7 r) []) f7.static_fields =
      [("severity", (alGet? (recordAfter f7 r).dict "levelname").getD Value.null)] := rfl
  have hmd1 : alGet? (enrichMessage r []) "severity" = none := by
    rw [enrich_get_ne r [] "severity" (by decide) (by decide)]; rfl
  have hmd2 : alGet? (enrichMessage r []) "levelname" = none := by
    rw [enrich_get_ne r [] "levelname" (by decide) (by decide)]; rfl
  have hrsev : alGet? (recordAfter f7 r).dict "severity" = none := by
    rw [recordAfter_get_ne f7 r "severity" (by decide) (by decide) (by decide)]
    exact hsev
  constructor
  · rw [hstep, hmsg]
    simp only [Option.getD_none]
    rw [mergeFold_get_absent f7.skip_fields "severity" (recordAfter f7 r).dict hrsev,
        alUpdate_get_none _ _ _ hmd1, hpre]
    simp [alGet?, hlev]
  · rw [hstep, hmsg]
    simp only [Option.getD_none]
    have hskip : f7.skip_fields.contains "levelname" = true := by decide
    rw [mergeFold_get_skip f7.skip_fields "levelname" (Or.inl hskip)
          (recordAfter f7 r).dict,
        alUpdate_get_none _ _ _ hmd2, hpre]
    simp [alGet?]

theorem c7_witness :
    (msgDict0 rW7 = none ∧ alGet? rW7.dict "severity" = none) ∧
    (alGet? (f7.format rW7).1 "severity" =
       some ((alGet? rW7.dict "levelname").getD Value.null) ∧
     alGet? (f7.format rW7).1 "levelname" = none) :=
  ⟨⟨rfl, rfl⟩, c7_rename_precedence rW7 rfl rfl⟩

theorem alSet_keys_sub {α : Type} (d : List (String × α)) (k : String) (v : α)
    (a : String) : a ∈ (alSet d k v).map Prod.fst → a ∈ d.map Prod.fst ∨ a = k := by
  induction d with
  | nil =>
    intro h
    right
    simpa [alSet] using h
  | cons p rest ih =>
    intro h
    obtain ⟨k1, v1⟩ := p
    by_cases h1 : k1 = k
    · subst h1
      simp only [alSet, eq_self_iff_true, if_true, List.map_cons, List.mem_cons] at h
      rcases h with h | h
      · right; exact h
      · left
        simp only [List.map_cons, List.mem_cons]
        right; exact h
    · simp only [alSet, if_neg h1, List.map_cons, List.mem_cons] at h
      rcases h with h | h
      · left
        simp only [List.map_cons, List.mem_cons]
        left; exact h
      · rcases ih h with h2 | h2
        · left
          simp only [List.map_cons, List.mem_cons]
          right; exact h2
        · right; exact h2

theorem alSet_keys_nodup {α : Type} (d : List (String × α)) (k : String) (v : α)
    (h : (d.map Prod.fst).Nodup) : ((alSet d k v).map Prod.fst).Nodup := by
  induction d with
  | nil => simp [alSet]
  | cons p rest ih =>
    obtain ⟨k1, v1⟩ := p
    have h2 : (k1 :: rest.map Prod.fst).Nodup := by simpa using h
    by_cases h1 : k1 = k
    · subst h1
      simpa [alSet] using h2
    · have hk1 : k1 ∉ rest.map Prod.fst := (List.nodup_cons.mp h2).1
      have hk2 : k1 ∉ (alSet rest k v).map Prod.fst := by
        intro hc
        rcases alSet_keys_sub rest k v k1 hc with hc | hc
        · exact hk1 hc
        · exact h1 hc
      simp only [alSet, if_neg h1, List.map_cons]
      exact List.nodup_cons.mpr ⟨hk2, ih (List.nodup_cons.mp h2).2⟩

theorem recordAfter_keys_nodup (f : JsonFormatter) (r : LogRecord)
    (h : (r.dict.map Prod.fst).Nodup) :
    ((recordAfter f r).dict.map Prod.fst).Nodup := by
  unfold recordAfter
  simp only
  cases hM : msgDict0 r with
  | none =>
    simp only
    split
    · exact alSet_keys_nodup _ _ _ (alSet_keys_nodup _ _ _ h)
    · exact alSet_keys_nodup _ _ _ h
  | some md =>
    simp only
    split
    · exact alSet_keys_nodup _ _ _ (alSet_keys_nodup _ _ _ (alSet_keys_nodup _ _ _ h))
    · exact alSet_keys_nodup _ _ _ (alSet_keys_nodup _ _ _ h)

/-- C10: renaming redirects only the key the built-in value is stored
under while the skip-set keeps the original names: with `levelname` renamed
to `sev` (not reserved, not parsed), a record extra named `sev` wins — the
extras merge overwrites the renamed built-in value in the output. -/
theorem c10_extras_overwrite_renamed (r : LogRecord) (v : Value)
    (hnd : (r.dict.map Prod.fst).Nodup)
    (hv : alGet? r.dict "sev" = some v) :
    "sev" ∉ f10.reserved_attrs ∧ "sev" ∉ f10.required_fields ∧
    alGet? (f10.format r).1 "sev" = some v := by
  refine ⟨by decide, by decide, ?_⟩
  have hstep : (f10.format r).1 =
      (recordAfter f10 r).dict.foldl (mergeStep f10.skip_fields)
        (alUpdate
          (alUpdate (reqFold f10 (recordAfter f10 r) []) f10.static_fields)
          (enrichMessage r ((msgDict0 r).getD []))) := rfl
  rw [hstep]
  have hget : alGet? (recordAfter f10 r).dict "sev" = some v := by
    rw [recordAfter_get_ne f10 r "sev" (by decide) (by decide) (by decide)]
    exact hv
  exact mergeFold_get_mem f10.skip_fields "sev" v (recordAfter f10 r).dict
    (recordAfter_keys_nodup f10 r hnd) hget (by decide) (by decide) _

theorem c10_witness :
    ((rW10.dict.map Prod.fst).Nodup ∧ alGet? rW10.dict "sev" = some (Value.str "extra")) ∧
    ("sev" ∉ f10.reserved_attrs ∧ "sev" ∉ f10.required_fields ∧
     alGet? (f10.format rW10).1 "sev" = some (Value.str "extra")) :=
  ⟨⟨by decide, rfl⟩, c10_extras_overwrite_renamed rW10 (Value.str "extra") (by decide) rfl⟩

theorem enrich_keys_nodup (r : LogRecord) (md : Dct)
    (h : (md.map Prod.fst).Nodup) :
    ((enrichMessage r md).map Prod.fst).Nodup := by
  unfold enrichMessage
  dsimp only
  repeat' split
  all_goals
    first
    | exact h
    | exact alSet_keys_nodup _ _ _ h
    | exact alSet_keys_nodup _ _ _ (alSet_keys_nodup _ _ _ h)
    | exact alSet_keys_nodup _ _ _ (alSet_keys_nodup _ _ _ (alSet_keys_nodup _ _ _ h))

/-- The `message` attribute the record holds after `format`: null for a
mapping message, the formatted message text otherwise. -/
theorem recordAfter_get_message (f : JsonFormatter) (r : LogRecord) :
    alGet? (recordAfter f r).dict "message" =
      some (match msgDict0 r with
            | some _ => Value.null
            | none => Value.str r.msgText) := by
  unfold recordAfter
  simp only
  cases hM : msgDict0 r with
  | none =>
    simp only
    rw [alGet_ite_set_ne _ _ _ _ _ (by decide), alGet_set_self]
  | some md =>
    simp only
    rw [alGet_set_ne _ _ _ _ (by decide),
        alGet_ite_set_ne _ _ _ _ _ (by decide), alGet_set_self]

/-- When `asctime` is not a parsed field, `format` only touches the
`message` and `msg` attributes of the record. -/
theorem recordAfter_get_ne2 (f : JsonFormatter) (r : LogRecord) (k : String)
    (h1 : k ≠ "message") (h3 : k ≠ "msg")
    (hasct : f.required_fields.contains "asctime" = false) :
    alGet? (recordAfter f r).dict k = alGet? r.dict k := by
  unfold recordAfter
  simp only
  cases hM : msgDict0 r with
  | none =>
    simp only
    split
    next hcond => rw [hasct] at hcond; cases hcond
    next => exact alGet_set_ne _ _ _ _ h1
  | some md =>
    simp only
    rw [alGet_set_ne _ _ _ _ h3]
    split
    next hcond => rw [hasct] at hcond; cases hcond
    next => exact alGet_set_ne _ _ _ _ h1

/-- C4: when the raw message is a mapping, `format` suppresses the
formatted-message field — `record.message` is cleared to null and the
output `message` field is null — and the mapping keys become top-level
output fields. -/
theorem c4_dict_message (r : LogRecord) (dm : Dct) (k : String) (v : Value)
    (hmsg : msgDict0 r = some dm)
    (hdmnd : (dm.map Prod.fst).Nodup)
    (hnomk : alGet? dm "message" = none)
    (hk : alGet? dm k = some v)
    (hk1 : k ≠ "exc_info") (hk2 : k ≠ "stack_info")
    (hkr : alGet? r.dict k = none) :
    alGet? (f4.format r).1 "message" = some Value.null ∧
    alGet? (f4.format r).1 k = some v ∧
    alGet? ((f4.format r).2.dict) "message" = some Value.null := by
  have hkmsg : k ≠ "msg" := by
    intro hkm
    subst hkm
    unfold msgDict0 at hmsg
    rw [hkr] at hmsg
    cases hmsg
  have hkmessage : k ≠ "message" := by
    intro hkm
    subst hkm
    rw [hnomk] at hk
    cases hk
  have hstep : (f4.format r).1 =
      (recordAfter f4 r).dict.foldl (mergeStep f4.skip_fields)
        (alUpdate
          (alUpdate (reqFold f4 (recordAfter f4 r) []) f4.static_fields)
          (enrichMessage r ((msgDict0 r).getD []))) := rfl
  have hpre : alUpdate (reqFold f4 (recordAfter f4 r) []) f4.static_fields =
      [("message", (alGet? (recordAfter f4 r).dict "message").getD Value.null)] := rfl
  have hrmsg : alGet? (recordAfter f4 r).dict "message" = some Value.null := by
    rw [recordAfter_get_message f4 r, hmsg]
  refine ⟨?_, ?_, ?_⟩
  · rw [hstep, hmsg]
    simp only [Option.getD_some]
    have hmd : alGet? (enrichMessage r dm) "message" = none := by
      rw [enrich_get_ne r dm "message" (by decide) (by decide)]
      exact hnomk
    have hskip : f4.skip_fields.contains "message" = true := by decide
    rw [mergeFold_get_skip f4.skip_fields "message" (Or.inl hskip)
          (recordAfter f4 r).dict,
        alUpdate_get_none _ _ _ hmd, hpre, hrmsg]
    simp [alGet?]
  · rw [hstep, hmsg]
    simp only [Option.getD_some]
    have hrk : alGet? (recordAfter f4 r).dict k = none := by
      rw [recordAfter_get_ne2 f4 r k hkmessage hkmsg (by decide)]
      exact hkr
    have hmd : alGet? (enrichMessage r dm) k = some v := by
      rw [enrich_get_ne r dm k hk1 hk2]
      exact hk
    rw [mergeFold_get_absent f4.skip_fields k (recordAfter f4 r).dict hrk]
    exact alUpdate_get_mem _ _ _ (enrich_keys_nodup r dm hdmnd) hmd _
  · have hsnd : (f4.format r).2 = recordAfter f4 r := rfl
    rw [hsnd]
    exact hrmsg

theorem c4_witness :
    (msgDict0 rW4 = some dmW4 ∧ (dmW4.map Prod.fst).Nodup ∧
     alGet? dmW4 "message" = none ∧ alGet? dmW4 "service" = some (Value.str "y") ∧
     alGet? rW4.dict "service" = none) ∧
    (alGet? (f4.format rW4).1 "message" = some Value.null ∧
     alGet? (f4.format rW4).1 "service" = some (Value.str "y") ∧
     alGet? ((f4.format rW4).2.dict) "message" = some Value.null) :=
  ⟨⟨rfl, by decide, rfl, rfl, rfl⟩,
   c4_dict_message rW4 dmW4 "service" (Value.str "y") rfl (by decide) rfl rfl
     (by decide) (by decide) rfl⟩

/-- C8 counterexample: the message payload supplied an `exc_info` entry
(the empty string), yet the output `exc_info` is the formatted exception
text, not the supplied entry — a falsy supplied entry is not preserved
verbatim, refuting the claim as stated. -/
theorem c8_counterexample :
    msgDict0 rC8 = some [("exc_info", Value.str "")] ∧
    alGet? (f8.format rC8).1 "exc_info" = some (Value.str "TB") ∧
    Value.str "TB" ≠ Value.str "" :=
  ⟨rfl, rfl, by simp⟩

theorem truthyGet_set_self (d : Dct) (k : String) (v : Value) :
    truthyGet (alSet d k v) k = v.truthy := by
  unfold truthyGet
  rw [alGet_set_self]

/-- The `exc_info` entry of the enriched message mapping: a truthy supplied
entry survives; otherwise carried exception info is formatted in, with a
falsy formatted text further replaced by a truthy `exc_text`; with no
exception info a truthy `exc_text` fills the entry. -/
theorem enrich_get_exc (r : LogRecord) (md : Dct) :
    alGet? (enrichMessage r md) "exc_info" =
      (match r.excInfo with
       | some txt =>
         if truthyGet md "exc_info" then alGet? md "exc_info"
         else if txt.isEmpty && truthyOS r.excText then
           some (Value.str (r.excText.getD ""))
         else some (Value.str txt)
       | none =>
         if !(truthyGet md "exc_info") && truthyOS r.excText then
           some (Value.str (r.excText.getD ""))
         else alGet? md "exc_info") := by
  unfold enrichMessage
  dsimp only
  cases hE : r.excInfo with
  | none =>
    cases hS : r.stackInfo with
    | none =>
      dsimp only
      by_cases hc : (!truthyGet md "exc_info" && truthyOS r.excText) = true
      · rw [if_pos hc, if_pos hc, alGet_set_self]
      · rw [if_neg hc, if_neg hc]
    | some s =>
      dsimp only
      rw [alGet_ite_set_ne _ _ _ _ _ (by decide)]
      by_cases hc : (!truthyGet md "exc_info" && truthyOS r.excText) = true
      · rw [if_pos hc, if_pos hc, alGet_set_self]
      · rw [if_neg hc, if_neg hc]
  | some txt =>
    cases ht : truthyGet md "exc_info" with
    | true =>
      simp only [ht, Bool.not_true, Bool.false_eq_true, if_false, Bool.false_and, if_true]
      cases hS : r.stackInfo with
      | none => rfl
      | some s =>
        rw [alGet_ite_set_ne _ _ _ _ _ (by decide)]
    | false =>
      simp only [ht, Bool.not_false, if_true, Bool.false_eq_true, if_false,
                 truthyGet_set_self, Value.truthy, Bool.not_not]
      cases hS : r.stackInfo with
      | none =>
        by_cases hc : (txt.isEmpty && truthyOS r.excText) = true
        · rw [if_pos hc, if_pos hc, alGet_set_self]
        · rw [if_neg hc, if_neg hc, alGet_set_self]
      | some s =>
        rw [alGet_ite_set_ne _ _ _ _ _ (by decide)]
        by_cases hc : (txt.isEmpty && truthyOS r.excText) = true
        · rw [if_pos hc, if_pos hc, alGet_set_self]
        · rw [if_neg hc, if_neg hc, alGet_set_self]

/-- C8 (amended): a truthy `exc_info` entry supplied by the message payload
is preserved verbatim in the output; when the supplied entry is absent or
falsy, a record carrying exception info gets the formatted exception text,
and with no exception info a truthy pre-formatted `exc_text` is used. -/
theorem c8_exception_enrichment (r : LogRecord) (dm : Dct)
    (hmsg : msgDict0 r = some dm)
    (hdmnd : (dm.map Prod.fst).Nodup) :
    (truthyGet dm "exc_info" = true →
       alGet? (f8.format r).1 "exc_info" = alGet? dm "exc_info") ∧
    (∀ txt, truthyGet dm "exc_info" = false → r.excInfo = some txt →
       txt.isEmpty = false →
       alGet? (f8.format r).1 "exc_info" = some (Value.str txt)) ∧
    (truthyGet dm "exc_info" = false → r.excInfo = none →
       truthyOS r.excText = true →
       alGet? (f8.format r).1 "exc_info" = some (Value.str (r.excText.getD ""))) := by
  have hout : alGet? (f8.format r).1 "exc_info" =
      alGet? (alUpdate [] (enrichMessage r dm)) "exc_info" := by
    have hstep : (f8.format r).1 =
        (recordAfter f8 r).dict.foldl (mergeStep f8.skip_fields)
          (alUpdate (alUpdate (reqFold f8 (recordAfter f8 r) []) f8.static_fields)
            (enrichMessage r ((msgDict0 r).getD []))) := rfl
    rw [hstep, hmsg]
    simp only [Option.getD_some]
    rw [mergeFold_get_skip f8.skip_fields "exc_info" (Or.inl (by decide))
          (recordAfter f8 r).dict]
    rfl
  refine ⟨?_, ?_, ?_⟩
  · intro ht
    rw [hout]
    have hmd : alGet? (enrichMessage r dm) "exc_info" = alGet? dm "exc_info" := by
      rw [enrich_get_exc]
      cases hE : r.excInfo with
      | some txt =>
        dsimp only
        rw [if_pos ht]
      | none =>
        dsimp only
        simp only [ht, Bool.not_true, Bool.false_and, Bool.false_eq_true, if_false]
    cases hg : alGet? dm "exc_info" with
    | none => simp [truthyGet, hg] at ht
    | some v =>
      have hfin : alGet? (alUpdate [] (enrichMessage r dm)) "exc_info" = some v :=
        alUpdate_get_mem _ _ _ (enrich_keys_nodup r dm hdmnd) (hmd.trans hg) _
      exact hfin
  · intro txt ht hE htxt
    rw [hout]
    have hmd : alGet? (enrichMessage r dm) "exc_info" = some (Value.str txt) := by
      rw [enrich_get_exc, hE]
      simp only [ht, Bool.false_eq_true, if_false, htxt, Bool.false_and]
    exact alUpdate_get_mem _ _ _ (enrich_keys_nodup r dm hdmnd) hmd _
  · intro ht hE hT
    rw [hout]
    have hmd : alGet? (enrichMessage r dm) "exc_info" =
        some (Value.str (r.excText.getD "")) := by
      rw [enrich_get_exc, hE]
      simp only [ht, Bool.not_false, hT, Bool.and_self, if_true, Bool.true_and]
    exact alUpdate_get_mem _ _ _ (enrich_keys_nodup r dm hdmnd) hmd _

theorem c8_witness :
    (msgDict0 rW8 = some [("k", Value.int 1)] ∧
     truthyGet [("k", Value.int 1)] "exc_info" = false ∧
     rW8.excInfo = some "TB2" ∧ ("TB2").isEmpty = false) ∧
    alGet? (f8.format rW8).1 "exc_info" = some (Value.str "TB2") :=
  ⟨⟨rfl, rfl, rfl, rfl⟩,
   (c8_exception_enrichment rW8 [("k", Value.int 1)] rfl (by decide)).2.1
     "TB2" rfl rfl rfl⟩

/-- C1: the output is assembled with fixed precedence — parsed fields first
(record value, missing means null: `foo`), static fields overwriting them
(`bar`), message fields overwriting statics (`service`, giving `"y"` over
the static `"x"`), non-skipped extras overwriting all earlier same-named
keys (`user_id`), and finally the timestamp key (under `timestamp` for a
plain `True` flag, under the configured name for a string flag) set to the
UTC time of the record creation instant, overwriting everything. -/
theorem c1_assembly_precedence (r : LogRecord) (v : Value)
    (hnd : (r.dict.map Prod.fst).Nodup)
    (hmsg : msgDict0 r = some [("service", Value.str "y"), ("user_id", Value.str "m0")])
    (hserv : alGet? r.dict "service" = none)
    (huid : alGet? r.dict "user_id" = some v)
    (hE : r.excInfo = none) (hT : r.excText = none) (hS : r.stackInfo = none) :
    alGet? (fA.format r).1 "foo" = some ((alGet? r.dict "foo").getD Value.null) ∧
    alGet? (fA.format r).1 "bar" = some (Value.str "B") ∧
    alGet? (fA.format r).1 "service" = some (Value.str "y") ∧
    alGet? (fA.format r).1 "user_id" = some v ∧
    alGet? (fA.format r).1 "timestamp" = some (Value.pydt (isoUtc r.created)) ∧
    alGet? (fB.format r).1 "ts" = some (Value.pydt (isoUtc r.created)) := by
  have hmd : enrichMessage r [("service", Value.str "y"), ("user_id", Value.str "m0")] =
      [("service", Value.str "y"), ("user_id", Value.str "m0")] := by
    unfold enrichMessage
    rw [hE, hT, hS]
    dsimp only
    simp [truthyOS]
  have hstepA : (fA.format r).1 =
      alSet
        ((recordAfter fA r).dict.foldl (mergeStep fA.skip_fields)
          (alUpdate
            (alUpdate (reqFold fA (recordAfter fA r) []) fA.static_fields)
            (enrichMessage r ((msgDict0 r).getD []))))
        "timestamp" (Value.pydt (isoUtc r.created)) := rfl
  have hstepB : (fB.format r).1 =
      alSet
        ((recordAfter fB r).dict.foldl (mergeStep fB.skip_fields)
          (alUpdate
            (alUpdate (reqFold fB (recordAfter fB r) []) fB.static_fields)
            (enrichMessage r ((msgDict0 r).getD []))))
        "ts" (Value.pydt (isoUtc r.created)) := rfl
  have hpreA : alUpdate (alUpdate (reqFold fA (recordAfter fA r) []) fA.static_fields)
      [("service", Value.str "y"), ("user_id", Value.str "m0")] =
      [("foo", (alGet? (recordAfter fA r).dict "foo").getD Value.null),
       ("bar", Value.str "B"),
       ("service", Value.str "y"),
       ("user_id", Value.str "m0"),
       ("timestamp", Value.str "t0")] := rfl
  refine ⟨?_, ?_, ?_, ?_, ?_, ?_⟩
  · rw [hstepA, hmsg]
    simp only [Option.getD_some]
    rw [hmd, alGet_set_ne _ _ _ _ (by decide),
        mergeFold_get_skip fA.skip_fields "foo" (Or.inl (by decide))
          (recordAfter fA r).dict,
        hpreA]
    rw [recordAfter_get_ne2 fA r "foo" (by decide) (by decide) (by decide)]
    simp [alGet?]
  · rw [hstepA, hmsg]
    simp only [Option.getD_some]
    rw [hmd, alGet_set_ne _ _ _ _ (by decide),
        mergeFold_get_skip fA.skip_fields "bar" (Or.inl (by decide))
          (recordAfter fA r).dict,
        hpreA]
    simp [alGet?]
  · rw [hstepA, hmsg]
    simp only [Option.getD_some]
    have hserv2 : alGet? (recordAfter fA r).dict "service" = none := by
      rw [recordAfter_get_ne2 fA r "service" (by decide) (by decide) (by decide)]
      exact hserv
    rw [hmd, alGet_set_ne _ _ _ _ (by decide),
        mergeFold_get_absent fA.skip_fields "service" (recordAfter fA r).dict hserv2,
        hpreA]
    simp [alGet?]
  · rw [hstepA, hmsg]
    simp only [Option.getD_some]
    have huid2 : alGet? (recordAfter fA r).dict "user_id" = some v := by
      rw [recordAfter_get_ne2 fA r "user_id" (by decide) (by decide) (by decide)]
      exact huid
    rw [hmd, alGet_set_ne _ _ _ _ (by decide)]
    exact mergeFold_get_mem fA.skip_fields "user_id" v (recordAfter fA r).dict
      (recordAfter_keys_nodup fA r hnd) huid2 (by decide) (by decide) _
  · rw [hstepA]
    exact alGet_set_self _ _ _
  · rw [hstepB]
    exact alGet_set_self _ _ _

theorem c1_witness :
    ((rW1.dict.map Prod.fst).Nodup ∧
     msgDict0 rW1 = some [("service", Value.str "y"), ("user_id", Value.str "m0")] ∧
     alGet? rW1.dict "service" = none ∧
     alGet? rW1.dict "user_id" = some (Value.str "u1") ∧
     rW1.excInfo = none ∧ rW1.excText = none ∧ rW1.stackInfo = none) ∧
    (alGet? (fA.format rW1).1 "foo" = some ((alGet? rW1.dict "foo").getD Value.null) ∧
     alGet? (fA.format rW1).1 "bar" = some (Value.str "B") ∧
     alGet? (fA.format rW1).1 "service" = some (Value.str "y") ∧
     alGet? (fA.format rW1).1 "user_id" = some (Value.str "u1") ∧
     alGet? (fA.format rW1).1 "timestamp" = some (Value.pydt (isoUtc rW1.created)) ∧
     alGet? (fB.format rW1).1 "ts" = some (Value.pydt (isoUtc rW1.created))) :=
  ⟨⟨by decide, rfl, rfl, rfl, rfl, rfl, rfl⟩,
   c1_assembly_precedence rW1 (Value.str "u1") (by decide) rfl rfl rfl rfl rfl rfl⟩

/-- C9 counterexample: `format` does not leave the record unmodified — it
writes the `message` attribute (here setting it to the formatted message),
so the record after `format` differs from the record passed in. -/
theorem c9_counterexample : (f8.format r9).2 ≠ r9 := by
  intro h
  have h1 : alGet? ((f8.format r9).2.dict) "message" = some (Value.str "hi") := rfl
  rw [h] at h1
  have h2 : alGet? r9.dict "message" = none := rfl
  exact Option.noConfusion (h2.symm.trans h1)

/-- C9 (amended): `format` writes no state of the formatter itself (the
configuration, parsed field list and skip-set are immutable values in this
model, and `parse` and the encoder are functions of their arguments), but
it does write the record: only the `message` and `asctime` attributes and
the `msg` mapping alias can change, and every other attribute and record
field is left exactly as it was. -/
theorem c9_format_frame (f : JsonFormatter) (r : LogRecord) (k : String)
    (h1 : k ≠ "message") (h2 : k ≠ "asctime") (h3 : k ≠ "msg") :
    alGet? ((f.format r).2.dict) k = alGet? r.dict k ∧
    (f.format r).2.created = r.created ∧
    (f.format r).2.excInfo = r.excInfo ∧
    (f.format r).2.excText = r.excText ∧
    (f.format r).2.stackInfo = r.stackInfo ∧
    (f.format r).2.msgText = r.msgText ∧
    (f.format r).2.asctimeText = r.asctimeText :=
  ⟨recordAfter_get_ne f r k h1 h2 h3, rfl, rfl, rfl, rfl, rfl, rfl⟩

theorem c9_witness :
    (("name" : String) ≠ "message" ∧ ("name" : String) ≠ "asctime" ∧
     ("name" : String) ≠ "msg") ∧
    (alGet? ((f8.format r9).2.dict) "name" = alGet? r9.dict "name" ∧
     (f8.format r9).2.created = r9.created ∧
     (f8.format r9).2.excInfo = r9.excInfo ∧
     (f8.format r9).2.excText = r9.excText ∧
     (f8.format r9).2.stackInfo = r9.stackInfo ∧
     (f8.format r9).2.msgText = r9.msgText ∧
     (f8.format r9).2.asctimeText = r9.asctimeText) :=
  ⟨⟨by decide, by decide, by decide⟩,
   c9_format_frame f8 r9 "name" (by decide) (by decide) (by decide)⟩
